import Mathlib

/-!
Verification of the byte-stream relay core of the object-storage SDK
(src/common.ts, src/util.ts, src/minio.ts).

The event-driven code is embedded as explicit state machines: each
JavaScript event handler becomes one arm of a step function on an explicit
state record, and a run is a left fold of the step function over a list of
events.  Machine integers are modelled as Int; JavaScript truthiness and
the NaN-comparison behaviour of an undefined limit are modelled explicitly.
-/

set_option autoImplicit false

namespace OSS

/-- The hash algorithms accepted by the SDK options (HashType in common.ts). -/
inductive HashType
  | md5
  | sha1
  | sha128
  | sha256
deriving DecidableEq, Repr

/-- Error values that can flow through the relay and fetch layers:
ABORTED_ERR, TOO_LARGE_ERR, the waitForDrain TIMEOUT_ERROR, the
closed failure of waitForDrain, arbitrary transport/stream errors
(tagged by a numeric code), the defensive hash-empty error of fetch,
and HTTP-status failures. -/
inductive Err
  | aborted
  | tooLarge
  | timeout
  | closed
  | transport (code : Nat)
  | contractViolation
  | httpError (status : Nat)
deriving DecidableEq, Repr

/-- Abstract model of a crypto digest: the value of hash.digest is
determined by the algorithm the hash object was created with and the
exact byte sequence fed to hash.update, in order. -/
structure Digest where
  algo : HashType
  data : List Nat
deriving DecidableEq, Repr

/-- Concatenation of a list of byte chunks into one byte sequence. -/
def chunksFlat : List (List Nat) → List Nat
  | [] => []
  | c :: t => c ++ chunksFlat t

theorem chunksFlat_append_single (w : List (List Nat)) (c : List Nat) :
    chunksFlat (w ++ [c]) = chunksFlat w ++ c := by
  induction w with
  | nil => simp [chunksFlat]
  | cons a t ih => simp [chunksFlat, ih]

/-- JavaScript truthiness of an optional number: undefined and 0 are falsy,
every other number (negative included) is truthy. -/
def jsTruthy : Option Int → Bool
  | none => false
  | some n => n != 0

/-- The JavaScript comparison r > limit where limit may be undefined:
a comparison against undefined (NaN) is always false. -/
def jsGt (r : Int) (l : Option Int) : Bool :=
  match l with
  | none => false
  | some v => r > v

/-- Model of this._timeout in BaseObjectStorageSDK: config.timeout || 30000,
where || replaces the falsy values undefined and 0 by the default 30000. -/
def mkTimeout (t : Option Int) : Int :=
  match t with
  | none => 30000
  | some v => if v == 0 then 30000 else v

/-- The policy parameters _pipeReqeuest closes over: the limit and calcHash
arguments and the TIMEOUT captured from this._timeout. -/
structure PipeCfg where
  limit : Option Int
  calcHash : Option HashType
  timeout : Int
deriving DecidableEq, Repr

/-- Which path _pipeReqeuest takes: the pump fast path when limit is falsy
and no hash is requested, the explicit per-chunk path otherwise. -/
inductive PipeMode
  | fastPump
  | perChunk
deriving DecidableEq, Repr

/-- The branch condition at the top of _pipeReqeuest:
if (!limit && !calcHash) pump else per-chunk. -/
def pipeMode (cfg : PipeCfg) : PipeMode :=
  if !(jsTruthy cfg.limit) && !(cfg.calcHash.isSome) then .fastPump else .perChunk

/-- The mutable state of one per-chunk relay invocation: the complete flag,
the received byte counter, the bytes fed to the hash object so far, whether
the body/req listeners are still attached, whether req.destroy or req.end
was called, the chunks written to req in order, the paused flag of the body
stream, the pending waitForDrain timeout if one is armed, and the list of
callback invocations (error, digest argument). -/
structure PipeState where
  complete : Bool
  received : Int
  hashData : List Nat
  listenersAttached : Bool
  sinkDestroyed : Bool
  sinkEnded : Bool
  written : List (List Nat)
  paused : Bool
  drainPending : Option Int
  reported : List (Option Err × Option Digest)
deriving DecidableEq, Repr

/-- The state of the relay just after the listeners are registered. -/
def pipeInit : PipeState :=
  { complete := false
    received := 0
    hashData := []
    listenersAttached := true
    sinkDestroyed := false
    sinkEnded := false
    written := []
    paused := false
    drainPending := none
    reported := [] }

/-- ctx.done of _pipeReqeuest: set complete, destroy req when an error is
given, detach every listener (ctx.cleanup), then invoke the callback with
the error and, when calcHash is set, hash.digest over the bytes fed so far. -/
def pipeDone (cfg : PipeCfg) (s : PipeState) (err : Option Err) : PipeState :=
  { s with
    complete := true
    sinkDestroyed := s.sinkDestroyed || err.isSome
    listenersAttached := false
    reported := s.reported ++ [(err, cfg.calcHash.map (fun a => Digest.mk a s.hashData))] }

/-- The events the per-chunk relay can observe: a data chunk together with
the boolean req.write returned (false = backpressure), the shared end /
error / aborted / close handlers attached to both body and req, and the
resolution or rejection of a pending waitForDrain call. -/
inductive PipeEvent
  | evData (chunk : List Nat) (writeOk : Bool)
  | evEnded
  | evError (code : Nat)
  | evAborted
  | evClosed
  | evDrainOk
  | evDrainFail (e : Err)
deriving DecidableEq, Repr

/-- One event handler dispatch of _pipeReqeuest.  Every handler first
checks the complete flag.  onData updates received, rejects with
TOO_LARGE_ERR when received > limit (the and-undefined comparison is
false), then feeds the hash, writes the chunk, and on backpressure pauses
the body and arms waitForDrain with TIMEOUT.  onEnd calls req.end then
done; onError, onAborted and the drain rejection call done with the error;
onClose calls done with no error; a drain resolution resumes the body. -/
def pipeStep (cfg : PipeCfg) (s : PipeState) (ev : PipeEvent) : PipeState :=
  if s.complete then s
  else
    match ev with
    | .evData chunk writeOk =>
        let r := s.received + (chunk.length : Int)
        let s1 := { s with received := r }
        if jsGt r cfg.limit then pipeDone cfg s1 (some .tooLarge)
        else
          let s2 := { s1 with
            hashData := if cfg.calcHash.isSome then s1.hashData ++ chunk else s1.hashData
            written := s1.written ++ [chunk] }
          if writeOk then s2
          else { s2 with paused := true, drainPending := some cfg.timeout }
    | .evEnded => pipeDone cfg { s with sinkEnded := true } none
    | .evError code => pipeDone cfg s (some (.transport code))
    | .evAborted => pipeDone cfg s (some .aborted)
    | .evClosed => pipeDone cfg s none
    | .evDrainOk => { s with paused := false, drainPending := none }
    | .evDrainFail e => pipeDone cfg s (some e)

/-- Run the relay over a list of events in arrival order. -/
def pipeRun (cfg : PipeCfg) (s : PipeState) (evs : List PipeEvent) : PipeState :=
  evs.foldl (pipeStep cfg) s

/-- Total number of bytes written to the sink. -/
def writtenBytes (s : PipeState) : Nat :=
  (s.written.map List.length).sum

/-- The five event sources waitForDrain (util.ts) arms: the drain, error,
close and end listeners on the sink, and the setTimeout timer. -/
inductive DrainEvent
  | dDrain
  | dError (code : Nat)
  | dClosed
  | dEnded
  | dTimeout
deriving DecidableEq, Repr

/-- How waitForDrain settles for each event: drain and end resolve (none);
a sink error rejects with that error; close rejects with the closed
failure; timer expiry rejects with TIMEOUT_ERROR. -/
def drainOutcome : DrainEvent → Option Err
  | .dDrain => none
  | .dError code => some (.transport code)
  | .dClosed => some .closed
  | .dEnded => none
  | .dTimeout => some .timeout

/-- The state of one waitForDrain call: the done flag, whether the four
sink listeners are still attached, whether the timer is still armed, and
the settlements (none = resolve, some e = reject e) in order. -/
structure DrainState where
  ddone : Bool
  listenersArmed : Bool
  timerArmed : Bool
  settled : List (Option Err)
deriving DecidableEq, Repr

/-- waitForDrain just after arming the four listeners and the timer. -/
def drainInit : DrainState :=
  { ddone := false, listenersArmed := true, timerArmed := true, settled := [] }

/-- One event dispatch inside waitForDrain: every handler first checks the
done flag, then calls ctx.clear (set done, detach the four listeners,
clear the timer) and settles the promise per drainOutcome. -/
def drainStep (s : DrainState) (ev : DrainEvent) : DrainState :=
  if s.ddone then s
  else
    { ddone := true
      listenersArmed := false
      timerArmed := false
      settled := s.settled ++ [drainOutcome ev] }

/-- Run waitForDrain over a list of events in arrival order. -/
def drainRun (s : DrainState) (evs : List DrainEvent) : DrainState :=
  evs.foldl drainStep s

/-- The part of the FetchOptions that the finish logic of _fetch reads. -/
structure FetchCfg where
  calcHash : Option HashType
deriving DecidableEq, Repr

/-- The mutable state of one _fetch call: the done flag, the hash variable
filled in by the relay callback, and the completion-callback invocations
(recording the error argument of each). -/
structure FetchState where
  fdone : Bool
  fhash : Option Digest
  calls : List (Option Err)
deriving DecidableEq, Repr

/-- _fetch just after issuing the request. -/
def fetchInit : FetchState :=
  { fdone := false, fhash := none, calls := [] }

/-- The finish function of _fetch: return if done; if there is no error
but a hash was requested and none was produced, replace the error by the
defensive hash-empty error and schedule the callback WITHOUT setting done
(the early return skips the done = true assignment); otherwise set done
and schedule the callback with the error. -/
def fetchFinish (cfg : FetchCfg) (s : FetchState) (err : Option Err) : FetchState :=
  if s.fdone then s
  else if err.isNone && cfg.calcHash.isSome && s.fhash.isNone then
    { s with calls := s.calls ++ [some .contractViolation] }
  else
    { s with fdone := true, calls := s.calls ++ [err] }

/-- The events _fetch reacts to: a success (2xx) response being handed to
finish, a non-2xx response handed to finish with the status error, a
request error, and the completion of the body relay with its error and
body hash. -/
inductive FetchEvent
  | fRespOk
  | fRespErr (status : Nat)
  | fReqError (code : Nat)
  | fRelayDone (err : Option Err) (h : Option Digest)
deriving DecidableEq, Repr

/-- One event dispatch of _fetch: responses and request errors go to
finish; the relay callback returns if done, forwards a relay error to
finish, and otherwise stores the body hash. -/
def fetchStep (cfg : FetchCfg) (s : FetchState) (ev : FetchEvent) : FetchState :=
  match ev with
  | .fRespOk => fetchFinish cfg s none
  | .fRespErr status => fetchFinish cfg s (some (.httpError status))
  | .fReqError code => fetchFinish cfg s (some (.transport code))
  | .fRelayDone err h =>
      if s.fdone then s
      else
        match err with
        | some e => fetchFinish cfg s (some e)
        | none => { s with fhash := h }

/-- Run _fetch over a list of events in arrival order. -/
def fetchRun (cfg : FetchCfg) (s : FetchState) (evs : List FetchEvent) : FetchState :=
  evs.foldl (fetchStep cfg) s

/-- The options MinioObjectStorageSDK.writeObject branches on. -/
structure MinioOptions where
  limit : Option Int
  calcHash : Option HashType
deriving DecidableEq, Repr

/-- The events the source stream feeds to writeObject. -/
inductive SrcEvent
  | sData (chunk : List Nat)
  | sEnded
  | sError (code : Nat)
deriving DecidableEq, Repr

/-- How one writeObject call resolves: the hash branch resolves with the
value of the hashstr variable; the other branches resolve void; a
destroyed transform makes putObject reject with the destroy error. -/
inductive MinioOutcome
  | okHash (h : Option Digest)
  | okVoid
  | failed (e : Err)
deriving DecidableEq, Repr

/-- State of the hash branch of writeObject: the bytes fed to the sha256
hash object, the chunks pushed into the transform, the hashstr variable,
and the error the transform was destroyed with, if any (a second destroy
of an already destroyed stream is a no-op). -/
structure HashBrState where
  hashData : List Nat
  pushed : List (List Nat)
  hashstr : Option Digest
  destroyedErr : Option Err
deriving DecidableEq, Repr

/-- One source event in the hash branch: data pushes the chunk and feeds
the hash; end stores hash.digest into hashstr (the hash object was created
with sha256 regardless of the requested algorithm); an error destroys the
transform with it. -/
def hashBrStep (s : HashBrState) (ev : SrcEvent) : HashBrState :=
  match ev with
  | .sData c => { s with pushed := s.pushed ++ [c], hashData := s.hashData ++ c }
  | .sEnded => { s with hashstr := some (Digest.mk .sha256 s.hashData) }
  | .sError code =>
      { s with destroyedErr :=
          if s.destroyedErr.isSome then s.destroyedErr else some (.transport code) }

/-- State of the limit branch of writeObject: the running total, the end
flag, the pushed chunks and the destroy error. -/
structure LimitBrState where
  total : Int
  endFlag : Bool
  pushed : List (List Nat)
  destroyedErr : Option Err
deriving DecidableEq, Repr

/-- One source event in the limit branch: data is ignored after end,
otherwise the total is accumulated and compared against LIMIT_SIZE; an
over-limit chunk sets end and destroys the transform with TOO_LARGE_ERR,
an accepted chunk is pushed; end pushes the terminator once; an error
destroys the transform (this handler has no end guard in the source). -/
def limitBrStep (lim : Int) (s : LimitBrState) (ev : SrcEvent) : LimitBrState :=
  match ev with
  | .sData c =>
      if s.endFlag then s
      else
        let t := s.total + (c.length : Int)
        if t > lim then
          { s with total := t, endFlag := true, destroyedErr := some .tooLarge }
        else { s with total := t, pushed := s.pushed ++ [c] }
  | .sEnded => if s.endFlag then s else { s with endFlag := true }
  | .sError code =>
      { s with destroyedErr :=
          if s.destroyedErr.isSome then s.destroyedErr else some (.transport code) }

/-- MinioObjectStorageSDK.writeObject: if calcHash is truthy take the hash
branch (sha256 fixed, no byte counting); else if limit is truthy take the
counting branch with LIMIT_SIZE = limit; else pass the source straight
through. -/
def minioWriteObject (opts : MinioOptions) (evs : List SrcEvent) : MinioOutcome :=
  if opts.calcHash.isSome then
    let s := evs.foldl hashBrStep { hashData := [], pushed := [], hashstr := none, destroyedErr := none }
    match s.destroyedErr with
    | some e => .failed e
    | none => .okHash s.hashstr
  else if jsTruthy opts.limit then
    let lim := opts.limit.getD 0
    let s := evs.foldl (limitBrStep lim) { total := 0, endFlag := false, pushed := [], destroyedErr := none }
    match s.destroyedErr with
    | some e => .failed e
    | none => .okVoid
  else .okVoid

theorem pipeRun_nil (cfg : PipeCfg) (s : PipeState) : pipeRun cfg s [] = s := rfl

theorem pipeRun_cons (cfg : PipeCfg) (s : PipeState) (e : PipeEvent) (t : List PipeEvent) :
    pipeRun cfg s (e :: t) = pipeRun cfg (pipeStep cfg s e) t := rfl

theorem pipeStep_of_complete (cfg : PipeCfg) (s : PipeState) (ev : PipeEvent)
    (h : s.complete = true) : pipeStep cfg s ev = s := by
  simp [pipeStep, h]

theorem pipeRun_preserve (cfg : PipeCfg) (P : PipeState → Prop)
    (hstep : ∀ s ev, P s → P (pipeStep cfg s ev)) :
    ∀ (evs : List PipeEvent) (s : PipeState), P s → P (pipeRun cfg s evs) := by
  intro evs
  induction evs with
  | nil => intro s hs; exact hs
  | cons e t ih => intro s hs; exact ih _ (hstep s e hs)

theorem pipeStep_complete_mono (cfg : PipeCfg) (s : PipeState) (ev : PipeEvent)
    (h : s.complete = true) : (pipeStep cfg s ev).complete = true := by
  rw [pipeStep_of_complete cfg s ev h]; exact h

/-- The events whose handlers unconditionally reach ctx.done when the
relay is not yet complete. -/
def isTerminalEv : PipeEvent → Bool
  | .evEnded => true
  | .evError _ => true
  | .evAborted => true
  | .evClosed => true
  | .evDrainFail _ => true
  | _ => false

theorem pipeStep_terminal_complete (cfg : PipeCfg) (s : PipeState) (ev : PipeEvent)
    (h : isTerminalEv ev = true) : (pipeStep cfg s ev).complete = true := by
  by_cases hc : s.complete = true
  · rw [pipeStep_of_complete cfg s ev hc]; exact hc
  · have hcf : s.complete = false := by simpa using hc
    cases ev <;> simp [isTerminalEv] at h <;> simp [pipeStep, hcf, pipeDone]

theorem pipeRun_complete_of_terminal (cfg : PipeCfg) (evs : List PipeEvent)
    (s : PipeState) (ev : PipeEvent) (hmem : ev ∈ evs) (hterm : isTerminalEv ev = true) :
    (pipeRun cfg s evs).complete = true := by
  induction evs generalizing s with
  | nil => cases hmem
  | cons e t ih =>
      rw [pipeRun_cons]
      rcases List.mem_cons.mp hmem with hev | hmem2
      · subst hev
        exact pipeRun_preserve cfg (fun st => st.complete = true)
          (fun st ev2 h => pipeStep_complete_mono cfg st ev2 h) t _
          (pipeStep_terminal_complete cfg s ev hterm)
      · exact ih _ hmem2

/-- The single-resolution invariant of the per-chunk relay: before
completion nothing was reported and the listeners are attached; after
completion exactly one report was made and the listeners are detached;
every report carries the digest of exactly the bytes fed to the hash, and
a report with an error implies the sink was destroyed; and the bytes fed
to the hash are exactly the concatenation of the written chunks. -/
def PipeInv (cfg : PipeCfg) (s : PipeState) : Prop :=
  (s.complete = false → s.reported = [] ∧ s.listenersAttached = true)
  ∧ (s.complete = true → s.reported.length = 1 ∧ s.listenersAttached = false)
  ∧ (∀ p ∈ s.reported,
      p.2 = cfg.calcHash.map (fun a => Digest.mk a s.hashData)
      ∧ (p.1.isSome = true → s.sinkDestroyed = true))
  ∧ s.hashData = (if cfg.calcHash.isSome then chunksFlat s.written else [])

theorem pipeDone_inv (cfg : PipeCfg) (s : PipeState) (err : Option Err)
    (hrep : s.reported = [])
    (hh : s.hashData = (if cfg.calcHash.isSome then chunksFlat s.written else [])) :
    PipeInv cfg (pipeDone cfg s err) := by
  unfold PipeInv pipeDone
  refine ⟨?_, ?_, ?_, ?_⟩
  · intro h; simp at h
  · intro _; simp [hrep]
  · intro p hp
    simp only [hrep, List.nil_append, List.mem_singleton] at hp
    subst hp
    refine ⟨rfl, ?_⟩
    intro hs
    simp [hs]
  · exact hh

theorem pipeStep_preserves_inv (cfg : PipeCfg) (s : PipeState) (ev : PipeEvent)
    (h : PipeInv cfg s) : PipeInv cfg (pipeStep cfg s ev) := by
  by_cases hc : s.complete = true
  · rw [pipeStep_of_complete cfg s ev hc]; exact h
  · have hcf : s.complete = false := by simpa using hc
    obtain ⟨h1, h2, h3, h4⟩ := h
    obtain ⟨hrep, hlis⟩ := h1 hcf
    cases ev with
    | evData chunk writeOk =>
        by_cases hj : jsGt (s.received + (chunk.length : Int)) cfg.limit = true
        · simp only [pipeStep, hcf, Bool.false_eq_true, if_false, hj, if_true]
          exact pipeDone_inv cfg _ _ hrep h4
        · have hjf : jsGt (s.received + (chunk.length : Int)) cfg.limit = false := by
            simpa using hj
          have hgen : ∀ (pz : Bool) (dp : Option Int),
              PipeInv cfg
                { complete := false
                  received := s.received + (chunk.length : Int)
                  hashData := if cfg.calcHash.isSome then s.hashData ++ chunk else s.hashData
                  listenersAttached := s.listenersAttached
                  sinkDestroyed := s.sinkDestroyed
                  sinkEnded := s.sinkEnded
                  written := s.written ++ [chunk]
                  paused := pz
                  drainPending := dp
                  reported := s.reported } := by
            intro pz dp
            refine ⟨fun _ => ⟨hrep, hlis⟩, fun hx => by simp at hx, ?_, ?_⟩
            · intro p hp
              simp only [hrep] at hp
              cases hp
            · by_cases hcal : cfg.calcHash.isSome = true
              · simp only [hcal, if_true, chunksFlat_append_single]
                rw [h4, if_pos hcal]
              · have hcalf : cfg.calcHash.isSome = false := by simpa using hcal
                simp only [hcalf, Bool.false_eq_true, if_false]
                rw [h4, if_neg]
                simp [hcalf]
          simp only [pipeStep, hcf, Bool.false_eq_true, if_false, hjf]
          split
          · exact hgen s.paused s.drainPending
          · exact hgen true (some cfg.timeout)
    | evEnded =>
        simp only [pipeStep, hcf, Bool.false_eq_true, if_false]
        exact pipeDone_inv cfg _ _ hrep h4
    | evError code =>
        simp only [pipeStep, hcf, Bool.false_eq_true, if_false]
        exact pipeDone_inv cfg _ _ hrep h4
    | evAborted =>
        simp only [pipeStep, hcf, Bool.false_eq_true, if_false]
        exact pipeDone_inv cfg _ _ hrep h4
    | evClosed =>
        simp only [pipeStep, hcf, Bool.false_eq_true, if_false]
        exact pipeDone_inv cfg _ _ hrep h4
    | evDrainOk =>
        simp only [pipeStep, hcf, Bool.false_eq_true, if_false]
        refine ⟨fun _ => ⟨hrep, hlis⟩, fun hx => by simp at hx, fun p hp => h3 p hp, h4⟩
    | evDrainFail e =>
        simp only [pipeStep, hcf, Bool.false_eq_true, if_false]
        exact pipeDone_inv cfg _ _ hrep h4

theorem pipeInv_init (cfg : PipeCfg) : PipeInv cfg pipeInit := by
  refine ⟨fun _ => ⟨rfl, rfl⟩, fun hx => by simp [pipeInit] at hx, ?_, ?_⟩
  · intro p hp
    simp [pipeInit] at hp
  · simp [pipeInit, chunksFlat]

theorem pipeRun_inv (cfg : PipeCfg) (evs : List PipeEvent) :
    PipeInv cfg (pipeRun cfg pipeInit evs) :=
  pipeRun_preserve cfg (PipeInv cfg) (fun s ev h => pipeStep_preserves_inv cfg s ev h)
    evs pipeInit (pipeInv_init cfg)

theorem writtenBytes_append (w : List (List Nat)) (c : List Nat) :
    ((List.map List.length (w ++ [c])).sum : Nat) = (List.map List.length w).sum + c.length := by
  simp

/-- The size-cap invariant of the per-chunk relay under a limit of l: the
bytes written to the sink never exceed l, and while the relay is still
open the received counter equals the written byte count and is within l. -/
def LimitInv (l : Int) (s : PipeState) : Prop :=
  ((writtenBytes s : Int) ≤ l)
  ∧ (s.complete = false → s.received = (writtenBytes s : Int) ∧ s.received ≤ l)

theorem pipeStep_preserves_limitInv (cfg : PipeCfg) (l : Int) (s : PipeState)
    (ev : PipeEvent) (hl : cfg.limit = some l) (h : LimitInv l s) :
    LimitInv l (pipeStep cfg s ev) := by
  by_cases hc : s.complete = true
  · rw [pipeStep_of_complete cfg s ev hc]; exact h
  · have hcf : s.complete = false := by simpa using hc
    obtain ⟨hw, hopen⟩ := h
    obtain ⟨hrw, hrl⟩ := hopen hcf
    cases ev with
    | evData chunk writeOk =>
        by_cases hj : jsGt (s.received + (chunk.length : Int)) cfg.limit = true
        · simp only [pipeStep, hcf, Bool.false_eq_true, if_false, hj, if_true]
          exact ⟨hw, fun hx => by simp [pipeDone] at hx⟩
        · have hjf : ¬ (s.received + (chunk.length : Int) > l) := by
            rw [hl] at hj
            simpa [jsGt] using hj
          have hle : s.received + (chunk.length : Int) ≤ l := le_of_not_lt hjf
          have hwb : ((writtenBytes
              { complete := false,
                received := s.received + (chunk.length : Int),
                hashData := if cfg.calcHash.isSome then s.hashData ++ chunk else s.hashData,
                listenersAttached := s.listenersAttached,
                sinkDestroyed := s.sinkDestroyed,
                sinkEnded := s.sinkEnded,
                written := s.written ++ [chunk],
                paused := s.paused,
                drainPending := s.drainPending,
                reported := s.reported } : Nat) : Int)
              = (writtenBytes s : Int) + (chunk.length : Int) := by
            simp [writtenBytes]
          have hkey : LimitInv l
              { complete := false,
                received := s.received + (chunk.length : Int),
                hashData := if cfg.calcHash.isSome then s.hashData ++ chunk else s.hashData,
                listenersAttached := s.listenersAttached,
                sinkDestroyed := s.sinkDestroyed,
                sinkEnded := s.sinkEnded,
                written := s.written ++ [chunk],
                paused := s.paused,
                drainPending := s.drainPending,
                reported := s.reported } := by
            refine ⟨?_, fun _ => ⟨?_, hle⟩⟩
            · rw [hwb, ← hrw]; exact hle
            · rw [hwb, ← hrw]
          simp only [pipeStep, hcf, Bool.false_eq_true, if_false,
            show jsGt (s.received + (chunk.length : Int)) cfg.limit = false by simpa [hl, jsGt] using hjf]
          split
          · exact hkey
          · exact ⟨hkey.1, fun _ => hkey.2 rfl⟩
    | evEnded =>
        simp only [pipeStep, hcf, Bool.false_eq_true, if_false]
        exact ⟨hw, fun hx => by simp [pipeDone] at hx⟩
    | evError code =>
        simp only [pipeStep, hcf, Bool.false_eq_true, if_false]
        exact ⟨hw, fun hx => by simp [pipeDone] at hx⟩
    | evAborted =>
        simp only [pipeStep, hcf, Bool.false_eq_true, if_false]
        exact ⟨hw, fun hx => by simp [pipeDone] at hx⟩
    | evClosed =>
        simp only [pipeStep, hcf, Bool.false_eq_true, if_false]
        exact ⟨hw, fun hx => by simp [pipeDone] at hx⟩
    | evDrainOk =>
        simp only [pipeStep, hcf, Bool.false_eq_true, if_false]
        exact ⟨hw, fun _ => ⟨hrw, hrl⟩⟩
    | evDrainFail e =>
        simp only [pipeStep, hcf, Bool.false_eq_true, if_false]
        exact ⟨hw, fun hx => by simp [pipeDone] at hx⟩

theorem limitInv_init (l : Int) (hpos : 0 ≤ l) : LimitInv l pipeInit := by
  refine ⟨?_, fun _ => ⟨rfl, ?_⟩⟩
  · simpa [pipeInit, writtenBytes] using hpos
  · simpa [pipeInit] using hpos

theorem drainStep_done (s : DrainState) (ev : DrainEvent) (h : s.ddone = true) :
    drainStep s ev = s := by
  simp [drainStep, h]

theorem drainRun_done (s : DrainState) (evs : List DrainEvent) (h : s.ddone = true) :
    drainRun s evs = s := by
  induction evs with
  | nil => rfl
  | cons e t ih =>
      show drainRun (drainStep s e) t = s
      rw [drainStep_done s e h]
      exact ih

theorem hashBr_no_toolarge (evs : List SrcEvent) :
    ∀ s : HashBrState, s.destroyedErr ≠ some Err.tooLarge →
      (evs.foldl hashBrStep s).destroyedErr ≠ some Err.tooLarge := by
  induction evs with
  | nil => intro s h; exact h
  | cons e t ih =>
      intro s h
      apply ih
      cases e with
      | sData c => simpa [hashBrStep] using h
      | sEnded => simpa [hashBrStep] using h
      | sError code =>
          by_cases hd : s.destroyedErr.isSome = true
          · simpa [hashBrStep, hd] using h
          · simp [hashBrStep, hd]

theorem hashBr_data_run (chunks : List (List Nat)) :
    ∀ s : HashBrState,
      (chunks.map SrcEvent.sData).foldl hashBrStep s
        = { s with pushed := s.pushed ++ chunks, hashData := s.hashData ++ chunksFlat chunks } := by
  induction chunks with
  | nil => intro s; simp [chunksFlat]
  | cons c t ih =>
      intro s
      show (List.map SrcEvent.sData t).foldl hashBrStep (hashBrStep s (SrcEvent.sData c))
          = { s with pushed := s.pushed ++ c :: t, hashData := s.hashData ++ chunksFlat (c :: t) }
      rw [show hashBrStep s (SrcEvent.sData c)
          = { s with pushed := s.pushed ++ [c], hashData := s.hashData ++ c } from rfl, ih]
      simp [chunksFlat]

/-- C1: the relay does NOT treat a zero size limit as unbounded when a
hash is also requested.  At limit 0 with sha256 the per-chunk path is
taken and the very first 1-byte chunk already resolves TooLarge, because
the code compares received against the number 0; with the limit absent
the same trace completes without TooLarge.  This contradicts the claim
and the documented option behaviour (limit absent or not positive means
no size restriction). -/
theorem relay_zero_limit_with_hash_rejects :
    pipeMode (PipeCfg.mk (some 0) (some HashType.sha256) 30000) = PipeMode.perChunk
    ∧ (pipeRun (PipeCfg.mk (some 0) (some HashType.sha256) 30000) pipeInit
        [PipeEvent.evData [97] true]).reported
      = [(some Err.tooLarge, some (Digest.mk HashType.sha256 []))]
    ∧ (pipeRun (PipeCfg.mk none (some HashType.sha256) 30000) pipeInit
        [PipeEvent.evData [97] true, PipeEvent.evEnded]).reported
      = [(none, some (Digest.mk HashType.sha256 [97]))] := by
  decide

/-- C2 counterexample: limit 1, sha256 requested, one 2-byte chunk: the
relay resolves TooLarge while the digest input is still empty, so the
chunk that pushed the total over the limit was NOT fed into the running
digest before the early return — the size check comes first and the
rejected chunk is never hashed, refuting the claim as stated. -/
theorem relay_overlimit_chunk_not_hashed_cex :
    (pipeRun (PipeCfg.mk (some 1) (some HashType.sha256) 30000) pipeInit
        [PipeEvent.evData [10, 20] true]).reported
      = [(some Err.tooLarge, some (Digest.mk HashType.sha256 []))]
    ∧ (pipeRun (PipeCfg.mk (some 1) (some HashType.sha256) 30000) pipeInit
        [PipeEvent.evData [10, 20] true]).hashData = [] := by
  decide

/-- C2 (amended): on the per-chunk relay path with hashing enabled, a
chunk is fed into the running digest only AFTER the size check passes:
the digest input is always exactly the concatenation of the chunks
written to the sink, so the chunk that pushes the accumulated total over
the limit is never hashed. -/
theorem relay_digest_covers_written (cfg : PipeCfg) (evs : List PipeEvent)
    (h : cfg.calcHash.isSome = true) :
    (pipeRun cfg pipeInit evs).hashData = chunksFlat (pipeRun cfg pipeInit evs).written := by
  have h4 := (pipeRun_inv cfg evs).2.2.2
  rw [h4, if_pos h]

/-- Witness for the amended C2 theorem at a concrete relay run. -/
theorem relay_digest_covers_written_witness :
    (pipeRun (PipeCfg.mk (some 5) (some HashType.sha256) 30000) pipeInit
        [PipeEvent.evData [1, 2] true]).hashData
      = chunksFlat (pipeRun (PipeCfg.mk (some 5) (some HashType.sha256) 30000) pipeInit
        [PipeEvent.evData [1, 2] true]).written :=
  relay_digest_covers_written (PipeCfg.mk (some 5) (some HashType.sha256) 30000)
    [PipeEvent.evData [1, 2] true] (by decide)

/-- C3: the fetch completion callback is NOT invoked at most once.  With
a hash requested, a success response arriving before the relay has
delivered the body hash takes the defensive branch of finish, which
schedules the callback WITHOUT setting the done flag; a later relay
failure then schedules the callback a second time — two invocations for
one fetch call. -/
theorem fetch_defensive_double_callback :
    (fetchRun (FetchCfg.mk (some HashType.sha256)) fetchInit
        [FetchEvent.fRespOk, FetchEvent.fRelayDone (some (Err.transport 3)) none]).calls
      = [some Err.contractViolation, some (Err.transport 3)]
    ∧ (fetchRun (FetchCfg.mk (some HashType.sha256)) fetchInit
        [FetchEvent.fRespOk, FetchEvent.fRelayDone (some (Err.transport 3)) none]).calls.length
      = 2 := by
  decide

/-- C4: for every relay invocation and every event interleaving, at most
one terminal outcome is reported; whenever an outcome has been reported
every listener attached to source and sink is detached; and as soon as
the trace contains any terminating event (end, error, aborted, close or
a drain failure), exactly one outcome is reported. -/
theorem relay_single_resolution (cfg : PipeCfg) (evs : List PipeEvent) :
    (pipeRun cfg pipeInit evs).reported.length ≤ 1
    ∧ ((pipeRun cfg pipeInit evs).reported ≠ [] →
        (pipeRun cfg pipeInit evs).listenersAttached = false)
    ∧ (∀ ev ∈ evs, isTerminalEv ev = true →
        (pipeRun cfg pipeInit evs).reported.length = 1
        ∧ (pipeRun cfg pipeInit evs).listenersAttached = false) := by
  obtain ⟨h1, h2, _, _⟩ := pipeRun_inv cfg evs
  refine ⟨?_, ?_, ?_⟩
  · by_cases hc : (pipeRun cfg pipeInit evs).complete = true
    · exact le_of_eq (h2 hc).1
    · have hx := (h1 (by simpa using hc)).1
      simp [hx]
  · intro hne
    by_cases hc : (pipeRun cfg pipeInit evs).complete = true
    · exact (h2 hc).2
    · exact absurd (h1 (by simpa using hc)).1 hne
  · intro ev hmem hterm
    exact h2 (pipeRun_complete_of_terminal cfg evs pipeInit ev hmem hterm)

/-- Witness for the C4 theorem at a concrete relay run ending in end. -/
theorem relay_single_resolution_witness :
    (pipeRun (PipeCfg.mk (some 5) (some HashType.sha256) 30000) pipeInit
        [PipeEvent.evData [1] true, PipeEvent.evEnded]).reported.length = 1
    ∧ (pipeRun (PipeCfg.mk (some 5) (some HashType.sha256) 30000) pipeInit
        [PipeEvent.evData [1] true, PipeEvent.evEnded]).listenersAttached = false :=
  (relay_single_resolution (PipeCfg.mk (some 5) (some HashType.sha256) 30000)
      [PipeEvent.evData [1] true, PipeEvent.evEnded]).2.2
    PipeEvent.evEnded (by decide) (by decide)

/-- C5 counterexample: limit 1 with sha256, a 1-byte chunk then a 2-byte
chunk: the relay resolves TooLarge, yet the callback receives a digest
(over the previously accepted byte) alongside the error — a digest IS
returned to the relay callback on this path, refuting the claim as
stated. -/
theorem relay_toolarge_digest_returned_cex :
    (pipeRun (PipeCfg.mk (some 1) (some HashType.sha256) 30000) pipeInit
        [PipeEvent.evData [7] true, PipeEvent.evData [5, 6] true]).reported
      = [(some Err.tooLarge, some (Digest.mk HashType.sha256 [7]))]
    ∧ ((pipeRun (PipeCfg.mk (some 1) (some HashType.sha256) 30000) pipeInit
        [PipeEvent.evData [7] true, PipeEvent.evData [5, 6] true]).reported.map
          (fun p => p.2.isSome)) = [true] := by
  decide

/-- C5 (amended): with hashing enabled, every TooLarge resolution
destroys the sink, and the digest handed to the relay callback alongside
the error covers exactly the chunks accepted (written) before the
overflow — the over-limit chunk is excluded; the digest is passed, not
withheld. -/
theorem relay_toolarge_destroys_sink (cfg : PipeCfg) (a : HashType)
    (evs : List PipeEvent) (p : Option Err × Option Digest)
    (hh : cfg.calcHash = some a)
    (hp : p ∈ (pipeRun cfg pipeInit evs).reported)
    (htl : p.1 = some Err.tooLarge) :
    (pipeRun cfg pipeInit evs).sinkDestroyed = true
    ∧ p.2 = some (Digest.mk a (chunksFlat (pipeRun cfg pipeInit evs).written)) := by
  obtain ⟨_, _, h3, h4⟩ := pipeRun_inv cfg evs
  obtain ⟨hd, hs⟩ := h3 p hp
  have hsome : cfg.calcHash.isSome = true := by rw [hh]; rfl
  refine ⟨hs (by rw [htl]; rfl), ?_⟩
  rw [hd, hh, Option.map_some']
  rw [h4, if_pos hsome]

/-- Witness for the amended C5 theorem at a concrete over-limit run. -/
theorem relay_toolarge_destroys_sink_witness :
    (pipeRun (PipeCfg.mk (some 1) (some HashType.sha256) 30000) pipeInit
        [PipeEvent.evData [7] true, PipeEvent.evData [5, 6] true]).sinkDestroyed = true
    ∧ ((some Err.tooLarge, some (Digest.mk HashType.sha256 [7]))
        : Option Err × Option Digest).2
      = some (Digest.mk HashType.sha256
          (chunksFlat (pipeRun (PipeCfg.mk (some 1) (some HashType.sha256) 30000) pipeInit
            [PipeEvent.evData [7] true, PipeEvent.evData [5, 6] true]).written)) :=
  relay_toolarge_destroys_sink (PipeCfg.mk (some 1) (some HashType.sha256) 30000)
    HashType.sha256 [PipeEvent.evData [7] true, PipeEvent.evData [5, 6] true]
    (some Err.tooLarge, some (Digest.mk HashType.sha256 [7])) rfl (by decide) rfl

/-- C6 counterexample: with the SDK constructed without a timeout, a
backpressure episode arms waitForDrain with 30000 ms — the || default of
this._timeout in the base constructor — not 10000 ms; 10000 is only the
unused parameter default of waitForDrain itself, which _pipeReqeuest
always overrides. -/
theorem drain_timeout_not_10000_cex :
    (pipeRun (PipeCfg.mk none (some HashType.sha256) (mkTimeout none)) pipeInit
        [PipeEvent.evData [1] false]).drainPending = some 30000
    ∧ decide ((pipeRun (PipeCfg.mk none (some HashType.sha256) (mkTimeout none)) pipeInit
        [PipeEvent.evData [1] false]).drainPending = some 10000) = false := by
  decide

/-- C6 (amended): whenever req.write reports backpressure on an accepted
chunk, the source is paused and waitForDrain is armed with the TIMEOUT
captured from this._timeout (config.timeout || 30000), whose default is
30000 milliseconds. -/
theorem relay_backpressure_pauses_with_sdk_timeout :
    mkTimeout none = 30000
    ∧ ∀ (cfg : PipeCfg) (s : PipeState) (chunk : List Nat),
        s.complete = false →
        jsGt (s.received + (chunk.length : Int)) cfg.limit = false →
        (pipeStep cfg s (PipeEvent.evData chunk false)).paused = true
        ∧ (pipeStep cfg s (PipeEvent.evData chunk false)).drainPending = some cfg.timeout := by
  refine ⟨rfl, ?_⟩
  intro cfg s chunk hcf hj
  simp [pipeStep, hcf, hj]

/-- Witness for the amended C6 theorem at a concrete backpressure step. -/
theorem relay_backpressure_witness :
    (pipeStep (PipeCfg.mk none (some HashType.sha256) (mkTimeout none)) pipeInit
        (PipeEvent.evData [1] false)).paused = true
    ∧ (pipeStep (PipeCfg.mk none (some HashType.sha256) (mkTimeout none)) pipeInit
        (PipeEvent.evData [1] false)).drainPending
      = some (PipeCfg.mk none (some HashType.sha256) (mkTimeout none)).timeout :=
  relay_backpressure_pauses_with_sdk_timeout.2
    (PipeCfg.mk none (some HashType.sha256) (mkTimeout none)) pipeInit [1] rfl (by decide)

/-- C7: waitForDrain settles exactly once, on the first event among the
five armed sources: drain and end resolve, a sink error rejects with
that error, close rejects with the closed failure (a failure, unlike the
clean end resolution), and timer expiry rejects with the timeout error;
the instant the first event fires, the four listeners and the timer are
all disarmed and every later event is ignored. -/
theorem waitForDrain_first_event (ev : DrainEvent) (evs : List DrainEvent) :
    (drainRun drainInit (ev :: evs)).settled = [drainOutcome ev]
    ∧ (drainRun drainInit (ev :: evs)).listenersArmed = false
    ∧ (drainRun drainInit (ev :: evs)).timerArmed = false
    ∧ drainOutcome DrainEvent.dDrain = none
    ∧ drainOutcome DrainEvent.dEnded = none
    ∧ (∀ c : Nat, drainOutcome (DrainEvent.dError c) = some (Err.transport c))
    ∧ drainOutcome DrainEvent.dClosed = some Err.closed
    ∧ drainOutcome DrainEvent.dTimeout = some Err.timeout
    ∧ (drainOutcome DrainEvent.dClosed).isSome = true
    ∧ (drainOutcome DrainEvent.dEnded).isSome = false := by
  have hstep : drainStep drainInit ev
      = { ddone := true, listenersArmed := false, timerArmed := false,
          settled := [drainOutcome ev] } := by
    simp [drainStep, drainInit]
  have hrun : drainRun drainInit (ev :: evs)
      = { ddone := true, listenersArmed := false, timerArmed := false,
          settled := [drainOutcome ev] } := by
    show drainRun (drainStep drainInit ev) evs = _
    rw [hstep]
    exact drainRun_done _ _ rfl
  rw [hrun]
  exact ⟨rfl, rfl, rfl, rfl, rfl, fun c => rfl, rfl, rfl, rfl, rfl⟩

/-- C8: with a positive limit the per-chunk path is taken and the total
number of bytes written to the sink never exceeds the limit over any
event interleaving: the chunk whose arrival makes the accumulated count
exceed the limit is rejected before the write. -/
theorem relay_sink_within_limit (cfg : PipeCfg) (l : Int) (evs : List PipeEvent)
    (hl : cfg.limit = some l) (hpos : 0 < l) :
    ((writtenBytes (pipeRun cfg pipeInit evs) : Nat) : Int) ≤ l
    ∧ pipeMode cfg = PipeMode.perChunk := by
  constructor
  · exact (pipeRun_preserve cfg (LimitInv l)
      (fun s ev h => pipeStep_preserves_limitInv cfg l s ev hl h) evs pipeInit
      (limitInv_init l (le_of_lt hpos))).1
  · have hne : l ≠ 0 := by omega
    have ht : jsTruthy cfg.limit = true := by
      rw [hl]; simpa [jsTruthy] using hne
    simp [pipeMode, ht]

/-- Witness for the C8 theorem at a concrete over-limit run. -/
theorem relay_sink_within_limit_witness :
    ((writtenBytes (pipeRun (PipeCfg.mk (some 5) none 30000) pipeInit
        [PipeEvent.evData [1, 2, 3] true, PipeEvent.evData [9, 9, 9] true]) : Nat) : Int) ≤ 5
    ∧ pipeMode (PipeCfg.mk (some 5) none 30000) = PipeMode.perChunk :=
  relay_sink_within_limit (PipeCfg.mk (some 5) none 30000) 5
    [PipeEvent.evData [1, 2, 3] true, PipeEvent.evData [9, 9, 9] true] rfl (by decide)

/-- C9: in the Minio writeObject, whenever calcHash is set the hashing
branch is taken before the limit branch and performs no byte counting,
so the upload can never fail with TooLarge — for every source trace and
even when a positive limit is also supplied in the options. -/
theorem minio_hash_ignores_limit (opts : MinioOptions) (evs : List SrcEvent)
    (a : HashType) (h : opts.calcHash = some a) :
    minioWriteObject opts evs ≠ MinioOutcome.failed Err.tooLarge := by
  have hs : opts.calcHash.isSome = true := by rw [h]; rfl
  have hinv := hashBr_no_toolarge evs
      { hashData := [], pushed := [], hashstr := none, destroyedErr := none } (by simp)
  unfold minioWriteObject
  rw [if_pos hs]
  show (match (evs.foldl hashBrStep
      { hashData := [], pushed := [], hashstr := none, destroyedErr := none }).destroyedErr with
    | some e => MinioOutcome.failed e
    | none => MinioOutcome.okHash (evs.foldl hashBrStep
        { hashData := [], pushed := [], hashstr := none, destroyedErr := none }).hashstr)
    ≠ MinioOutcome.failed Err.tooLarge
  cases hde : (evs.foldl hashBrStep
      { hashData := [], pushed := [], hashstr := none, destroyedErr := none }).destroyedErr with
  | none => simp
  | some e =>
      rw [hde] at hinv
      simp only [ne_eq, MinioOutcome.failed.injEq]
      intro he
      exact hinv (by rw [he])

/-- Witness for the C9 theorem: a source larger than the supplied limit
with md5 requested still does not fail TooLarge. -/
theorem minio_hash_ignores_limit_witness :
    minioWriteObject (MinioOptions.mk (some 1) (some HashType.md5))
        [SrcEvent.sData [1, 2], SrcEvent.sEnded] ≠ MinioOutcome.failed Err.tooLarge :=
  minio_hash_ignores_limit (MinioOptions.mk (some 1) (some HashType.md5))
    [SrcEvent.sData [1, 2], SrcEvent.sEnded] HashType.md5 rfl

/-- C10: the Minio writeObject computes the digest with sha256 no matter
which algorithm calcHash requests: for every requested algorithm and
every source, the returned digest is the sha256 digest of the
concatenated source bytes. -/
theorem minio_hash_always_sha256 (a : HashType) (lim : Option Int)
    (chunks : List (List Nat)) :
    minioWriteObject (MinioOptions.mk lim (some a))
        (chunks.map SrcEvent.sData ++ [SrcEvent.sEnded])
      = MinioOutcome.okHash (some (Digest.mk HashType.sha256 (chunksFlat chunks))) := by
  unfold minioWriteObject
  rw [if_pos (show (some a).isSome = true from rfl)]
  rw [List.foldl_append, hashBr_data_run]
  simp [hashBrStep, chunksFlat]

end OSS
